import Mathlib

/-!
Verification of the `Wave1D` finite-difference wave simulator
(`src/environments/finite_diff_wave.py`).

The Python class is shallowly embedded over exact rationals.  The real
exponential used inside the Gaussian forcing profile is abstracted as a
parameter `rexp : ℚ → ℚ`: every structural statement below is proved for an
arbitrary `rexp`, so it holds in particular for the mathematical exponential.
NumPy arrays become `List ℚ`; an operation that can raise a NumPy exception
(shape-mismatch broadcasting) returns `Option`.
-/

namespace WaveRL

/-- The configuration dictionary handed to `Wave1D.__init__`. -/
structure Config where
  time_interval : ℚ
  wave_speed : ℚ
  system_length : ℚ
  num_lattice_points : ℕ
  num_force_points : ℕ
  force_width : ℚ
  deriving DecidableEq, Repr

/-- `np.linspace(0.0, stop, n)`: `n` evenly spaced samples from `0` to `stop`;
entry `i` is `i * stop / (n - 1)` (a single sample is the start point `0`). -/
def linspace (stop : ℚ) (n : ℕ) : List ℚ :=
  (List.range n).map (fun (i : ℕ) => (i : ℚ) * stop / ((n : ℚ) - 1))

/-- `self.dt`. -/
def dt (cfg : Config) : ℚ := cfg.time_interval

/-- `self.L`. -/
def L (cfg : Config) : ℚ := cfg.system_length

/-- `self.Nx`. -/
def Nx (cfg : Config) : ℕ := cfg.num_lattice_points

/-- `self.force_locations = np.linspace(0.0, L, num_force_points+2)[1:num_force_points+1]`. -/
def force_locations (cfg : Config) : List ℚ :=
  ((linspace (L cfg) (cfg.num_force_points + 2)).drop 1).take cfg.num_force_points

/-- `self.force_width` after the in-place scaling `self.force_width *= self.L`. -/
def force_width_scaled (cfg : Config) : ℚ := cfg.force_width * L cfg

/-- `self.dx = float(L)/float(Nx)` (the value used to build the Courant number;
the later recalibration `x_mesh[1] - x_mesh[0]` coincides with it over ℚ). -/
def dx (cfg : Config) : ℚ := L cfg / (Nx cfg : ℚ)

/-- `self.x_mesh = np.linspace(0.0, L, Nx+1)`. -/
def x_mesh (cfg : Config) : List ℚ := linspace (L cfg) (Nx cfg + 1)

/-- The Courant number `self.C = c_speed * dt / dx`. -/
def courant (cfg : Config) : ℚ := cfg.wave_speed * dt cfg / dx cfg

/-- `self.C2 = C**2`. -/
def C2 (cfg : Config) : ℚ := (courant cfg) ^ 2

/-- `self.Velocity_0 = lambda x: 0`. -/
def Velocity_0 (_ : ℚ) : ℚ := 0

/-- `self.Initial_Height = lambda x: 0`. -/
def Initial_Height (_ : ℚ) : ℚ := 0

/-- The mutable state of a `Wave1D` object: the three solution arrays, the
current forcing vector, the elapsed time `t` and the step counter `n`. -/
structure State where
  height : List ℚ
  height_n : List ℚ
  height_nm1 : List ℚ
  force_vals : List ℚ
  t : ℚ
  n : ℕ
  deriving DecidableEq, Repr

/-- NumPy elementwise multiplication of two 1-D arrays, including the
broadcasting rule: shapes `(m,)` and `(k,)` are compatible iff `m = k` or one
of them is `1` (the length-1 operand is then stretched); otherwise NumPy
raises a broadcast `ValueError`, modelled as `none`. -/
def broadcastMul (a b : List ℚ) : Option (List ℚ) :=
  if a.length = b.length then some (List.zipWith (fun u v => u * v) a b)
  else if a.length = 1 then some (b.map (fun v => a.headI * v))
  else if b.length = 1 then some (a.map (fun u => u * b.headI))
  else none

/-- `impulse_term(x) = np.sum(force_vals * np.exp(-0.5*((x-force_locations)**2)/force_width))`,
with the NumPy broadcast of the elementwise product made explicit. -/
def impulse_term (rexp : ℚ → ℚ) (cfg : Config) (force_vals : List ℚ) (x : ℚ) : Option ℚ :=
  (broadcastMul force_vals
    ((force_locations cfg).map
      (fun loc => rexp (-(1/2 : ℚ) * (x - loc) ^ 2 / force_width_scaled cfg)))).map
    (fun l => l.sum)

/-- Sequence an option-valued function over a list (the effect of running a
Python loop whose body may raise: the whole loop fails if any iteration does). -/
def mapOpt (f : α → Option β) : List α → Option (List β)
  | [] => some []
  | a :: as =>
    match f a, mapOpt f as with
    | some b, some bs => some (b :: bs)
    | _, _ => none

/-- The body of the special first step in `reset` for one index `i` of
`range(0, Nx+1)`: interior points get the half-step Taylor update, the two
boundary points are forced to `0`. -/
def resetEntry (rexp : ℚ → ℚ) (cfg : Config) (height_n : List ℚ) (force_vals : List ℚ)
    (i : ℕ) : Option ℚ :=
  if i = 0 ∨ i = Nx cfg then some 0
  else
    (impulse_term rexp cfg force_vals ((x_mesh cfg).getD i 0)).map (fun imp =>
      height_n.getD i 0 + dt cfg * Velocity_0 ((x_mesh cfg).getD i 0)
        + (1/2 : ℚ) * C2 cfg
            * (height_n.getD (i - 1) 0 - 2 * height_n.getD i 0 + height_n.getD (i + 1) 0)
        + (1/2 : ℚ) * dt cfg ^ 2 * imp)

/-- `Wave1D.reset`: zero `t`, `n` and `force_vals`, write the (identically
zero) initial condition into `height_n`, run the special first step into
`height` with the boundaries forced to zero, then shift the time levels
(`height_nm1[:] = height_n; height_n[:] = height`).  Every entry of all three
arrays is overwritten, so the result does not depend on the previous state;
the embedding therefore takes no state argument. -/
def reset (rexp : ℚ → ℚ) (cfg : Config) : Option State :=
  let force_vals : List ℚ := List.replicate cfg.num_force_points 0
  let height_n : List ℚ :=
    (List.range (Nx cfg + 1)).map (fun i => Initial_Height ((x_mesh cfg).getD i 0))
  (mapOpt (resetEntry rexp cfg height_n force_vals) (List.range (Nx cfg + 1))).map
    (fun height =>
      { height := height, height_n := height, height_nm1 := height_n,
        force_vals := force_vals, t := 0, n := 0 })

/-- The body of the update loop of `single_step` for one index `i` of
`range(0, Nx+1)`: interior points get the leapfrog recursion evaluated on the
pre-call time levels, the two boundary points are forced to `0`. -/
def stepEntry (rexp : ℚ → ℚ) (cfg : Config) (s : State) (i : ℕ) : Option ℚ :=
  if i = 0 ∨ i = Nx cfg then some 0
  else
    (impulse_term rexp cfg s.force_vals ((x_mesh cfg).getD i 0)).map (fun imp =>
      -s.height_nm1.getD i 0 + 2 * s.height_n.getD i 0
        + C2 cfg
            * (s.height_n.getD (i - 1) 0 - 2 * s.height_n.getD i 0 + s.height_n.getD (i + 1) 0)
        + dt cfg ^ 2 * imp)

/-- `Wave1D.single_step`: advance `t` and `n`, run the leapfrog recursion over
the interior, force the boundaries to zero, then shift the time levels
(`height_nm1[:] = height_n; height_n[:] = height`). -/
def single_step (rexp : ℚ → ℚ) (cfg : Config) (s : State) : Option State :=
  (mapOpt (stepEntry rexp cfg s) (List.range (Nx cfg + 1))).map
    (fun height =>
      { height := height, height_n := height, height_nm1 := s.height_n,
        force_vals := s.force_vals, t := s.t + dt cfg, n := s.n + 1 })

/-- `Wave1D.take_in_action`: `self.force_vals = np.copy(action)` — a plain
setter, by value, with no shape check of any kind. -/
def take_in_action (s : State) (action : List ℚ) : State :=
  { s with force_vals := action }

/-- `Wave1D.get_observation`: the `(1, Nx+1, 3)` array stacking `height`,
`height_n`, `height_nm1` along the last axis; embedded as the list of the
per-mesh-point channel triples. -/
def get_observation (cfg : Config) (s : State) : List (ℚ × ℚ × ℚ) :=
  (List.range (Nx cfg + 1)).map
    (fun i => (s.height.getD i 0, s.height_n.getD i 0, s.height_nm1.getD i 0))

/-- `Wave1D.__init__`: stores the configuration, allocates the arrays and
calls `reset`.  No parameter validation is performed; the only failures are
the Python `ZeroDivisionError` from `float(L)/float(Nx)` when `Nx = 0`
and from `c_speed*dt/dx` when `dx = 0` (i.e. `L = 0`). -/
def construct (rexp : ℚ → ℚ) (cfg : Config) : Option State :=
  if Nx cfg = 0 then none
  else if L cfg = 0 then none
  else reset rexp cfg

/-- `np.gradient(y, x)` for 1-D arrays: one-sided differences at the two
edges, and for an interior point the second-order three-point formula with
coefficients `a = -hs/(hd*(hd+hs))`, `b = (hs-hd)/(hd*hs)`,
`c = hd/(hs*(hd+hs))` where `hd = x[i]-x[i-1]`, `hs = x[i+1]-x[i]`
(this is NumPy's non-uniform interior stencil; for the uniform mesh used
here it reduces to the central difference `(y[i+1]-y[i-1])/(2h)`). -/
def gradInterior (hd hs ym y0 yp : ℚ) : ℚ :=
  -(hs / (hd * (hd + hs))) * ym + ((hs - hd) / (hd * hs)) * y0
    + (hd / (hs * (hd + hs))) * yp

/-- `np.gradient(y, x)` assembled over all indices: one-sided differences at
the two edges, `gradInterior` at interior points. -/
def npGradient (y x : List ℚ) : List ℚ :=
  (List.range y.length).map (fun i =>
    if i = 0 then (y.getD 1 0 - y.getD 0 0) / (x.getD 1 0 - x.getD 0 0)
    else if i = y.length - 1 then
      (y.getD (y.length - 1) 0 - y.getD (y.length - 2) 0)
        / (x.getD (y.length - 1) 0 - x.getD (y.length - 2) 0)
    else
      gradInterior (x.getD i 0 - x.getD (i - 1) 0) (x.getD (i + 1) 0 - x.getD i 0)
        (y.getD (i - 1) 0) (y.getD i 0) (y.getD (i + 1) 0))

/-- One two-interval Simpson contribution of SciPy's `_basic_simps`, anchored
at index `i`: `hsum/6 * (y[i]*(2 - 1/(h0/h1)) + y[i+1]*hsum^2/(h0*h1) + y[i+2]*(2 - h0/h1))`. -/
def simpsonSlice (y x : List ℚ) (i : ℕ) : ℚ :=
  let h0 := x.getD (i + 1) 0 - x.getD i 0
  let h1 := x.getD (i + 2) 0 - x.getD (i + 1) 0
  let hsum := h0 + h1
  let hprod := h0 * h1
  let h0divh1 := h0 / h1
  hsum / 6 * (y.getD i 0 * (2 - 1 / h0divh1)
    + y.getD (i + 1) 0 * (hsum * hsum / hprod)
    + y.getD (i + 2) 0 * (2 - h0divh1))

/-- SciPy's `_basic_simps(y, start, stop, x, ...)`: the Simpson contributions
anchored at `i = start, start+2, ...` for `i < stop` (the Python
`range(start, stop, 2)`). -/
def basicSimpson (y x : List ℚ) (start stop : ℕ) : ℚ :=
  (((List.range ((stop - start + 1) / 2)).map (fun k => start + 2 * k)).map
    (simpsonSlice y x)).sum

/-- `scipy.integrate.simps(y, x)` with the default `even='avg'` handling: for
an odd number of sample points, plain composite Simpson; for an even number,
the average of (Simpson on all but the last interval + trapezoid on the last)
and (trapezoid on the first interval + Simpson on the rest). -/
def simps (y x : List ℚ) : ℚ :=
  let N := y.length
  if N % 2 = 0 then
    let val := (1/2 : ℚ) * (x.getD (N - 1) 0 - x.getD (N - 2) 0)
        * (y.getD (N - 1) 0 + y.getD (N - 2) 0)
      + (1/2 : ℚ) * (x.getD 1 0 - x.getD 0 0) * (y.getD 0 0 + y.getD 1 0)
    let result := basicSimpson y x 0 (N - 3) + basicSimpson y x 1 (N - 2)
    result / 2 + val / 2
  else basicSimpson y x 0 (N - 2)

/-- `Wave1D.energy`: `dudt = (height - height_nm1)/dt`, `dudx = np.gradient(height, x_mesh)`,
`energy_density = dudt**2 + C**2 * dudx**2` then `+= height**2`, returning
`0.5 * simps(energy_density, x_mesh)`.  (The code also computes a
`space_term` that is never used; it is dead code and omitted.) -/
def energy (cfg : Config) (s : State) : ℚ :=
  let dudt := List.zipWith (fun a b => (a - b) / dt cfg) s.height s.height_nm1
  let dudx := npGradient s.height (x_mesh cfg)
  let energy_density := List.zipWith (fun u v => u ^ 2 + courant cfg ^ 2 * v ^ 2) dudt dudx
  let energy_density2 := List.zipWith (fun e h => e + h ^ 2) energy_density s.height
  (1/2 : ℚ) * simps energy_density2 (x_mesh cfg)

/-- The energy as the specification words it: half the Simpson-rule integral
over the mesh of the pointwise density `dudt^2 + C^2*dudx^2 + height^2`,
where `dudt[i] = (height[i] - height_nm1[i])/dt`, `dudx` is the numerical
gradient of `height` over the mesh and `C` is the Courant number. -/
def energySpecFormula (cfg : Config) (s : State) : ℚ :=
  let dudx := npGradient s.height (x_mesh cfg)
  let density := (List.range s.height.length).map (fun i =>
    ((s.height.getD i 0 - s.height_nm1.getD i 0) / dt cfg) ^ 2
      + courant cfg ^ 2 * (dudx.getD i 0) ^ 2
      + (s.height.getD i 0) ^ 2)
  (1/2 : ℚ) * simps density (x_mesh cfg)

/-- One call of the runtime interface an external controller can make between
observations: `single_step()` or `take_in_action(a)`. -/
inductive Op where
  | step : Op
  | act : List ℚ → Op
  deriving DecidableEq, Repr

/-- Execute one interface call on a state. -/
def applyOp (rexp : ℚ → ℚ) (cfg : Config) (s : State) : Op → Option State
  | Op.step => single_step rexp cfg s
  | Op.act a => some (take_in_action s a)

/-- Run a call sequence from an optional state, recording `get_observation()`
after every call (`none` once a call has raised). -/
def obsTrace (rexp : ℚ → ℚ) (cfg : Config) :
    Option State → List Op → List (Option (List (ℚ × ℚ × ℚ)))
  | _, [] => []
  | os, op :: ops =>
    let os' := os.bind (fun s => applyOp rexp cfg s op)
    os'.map (get_observation cfg) :: obsTrace rexp cfg os' ops

/-- The observation trace of a freshly constructed instance fed a call
sequence. -/
def runTrace (rexp : ℚ → ℚ) (cfg : Config) (ops : List Op) :
    List (Option (List (ℚ × ℚ × ℚ))) :=
  obsTrace rexp cfg (construct rexp cfg) ops

/-- The states a `Wave1D` object can be in once `reset` has run: the state
`reset` produces, and anything reachable from such a state through
`take_in_action` (any vector) and successful `single_step` calls. -/
inductive Reachable (rexp : ℚ → ℚ) (cfg : Config) : State → Prop where
  | rst : ∀ {s}, reset rexp cfg = some s → Reachable rexp cfg s
  | act : ∀ {s} (a : List ℚ), Reachable rexp cfg s → Reachable rexp cfg (take_in_action s a)
  | stp : ∀ {s s'}, Reachable rexp cfg s → single_step rexp cfg s = some s' →
      Reachable rexp cfg s'

/-- The value `single_step` writes at index `i` when it starts from the rest
state with forcing vector `b`: zero at the boundaries and `dt^2` times the
impulse there at interior points (all three height arrays vanish at rest, so
only the forcing term survives in the leapfrog recursion). -/
def restStepEntryVal (rexp : ℚ → ℚ) (cfg : Config) (b : List ℚ) (i : ℕ) : ℚ :=
  if i = 0 ∨ i = Nx cfg then 0
  else dt cfg ^ 2 * (List.zipWith (fun u v => u * v) b
    ((force_locations cfg).map
      (fun loc => rexp (-(1/2 : ℚ) * ((x_mesh cfg).getD i 0 - loc) ^ 2
        / force_width_scaled cfg)))).sum

/-- A concrete stand-in for the real exponential, used to instantiate the
parametric theorems on concrete inputs. -/
def rexp1 : ℚ → ℚ := fun _ => 1

/-- A second concrete stand-in with non-constant values. -/
def rexpA : ℚ → ℚ := fun q => 1 + q

/-- A small concrete configuration: `dt = 1`, `c = 1`, `L = 1`, `Nx = 2`,
one forcing site, fractional width `1`. -/
def cfg0 : Config := ⟨1, 1, 1, 2, 1, 1⟩

/-- Like `cfg0` but with three forcing sites. -/
def cfgB : Config := ⟨1, 1, 1, 2, 3, 1⟩

/-- A configuration with a non-positive parameter (`time_interval = -1`). -/
def cfgNeg : Config := ⟨-1, 1, 1, 2, 1, 1⟩

/-- The rest state of `cfg0`. -/
def rest0 : State := ⟨[0, 0, 0], [0, 0, 0], [0, 0, 0], [0], 0, 0⟩

/-- The state of `cfg0` after `reset` and `take_in_action [3]`. -/
def sAct0 : State := ⟨[0, 0, 0], [0, 0, 0], [0, 0, 0], [3], 0, 0⟩

/-- The state of `cfg0` after `reset`, `take_in_action [3]` and one
`single_step` (under `rexp1`). -/
def sStep0 : State := ⟨[0, 3, 0], [0, 3, 0], [0, 0, 0], [3], 1, 1⟩

/-- The rest state of `cfgB`. -/
def restB : State := ⟨[0, 0, 0], [0, 0, 0], [0, 0, 0], [0, 0, 0], 0, 0⟩

/-- A concrete interface-call sequence. -/
def opsW : List Op := [Op.act [3], Op.step]

/-! ### Helper lemmas -/

theorem mapOpt_some_length {α β : Type} {f : α → Option β} {l : List α} {l' : List β}
    (h : mapOpt f l = some l') : l'.length = l.length := by
  induction l generalizing l' with
  | nil =>
    simp only [mapOpt, Option.some.injEq] at h
    simp [← h]
  | cons a as ih =>
    simp only [mapOpt] at h
    cases hfa : f a with
    | none => rw [hfa] at h; cases h
    | some b =>
      rw [hfa] at h
      cases hrec : mapOpt f as with
      | none => rw [hrec] at h; cases h
      | some bs =>
        rw [hrec] at h
        simp only [Option.some.injEq] at h
        simp [← h, ih hrec]

theorem mapOpt_some_getElem {α β : Type} {f : α → Option β} {l : List α} {l' : List β}
    (h : mapOpt f l = some l') (i : ℕ) (hi : i < l.length) (hi' : i < l'.length) :
    f (l[i]) = some (l'[i]) := by
  induction l generalizing l' i with
  | nil => simp at hi
  | cons a as ih =>
    simp only [mapOpt] at h
    cases hfa : f a with
    | none => rw [hfa] at h; cases h
    | some b =>
      rw [hfa] at h
      cases hrec : mapOpt f as with
      | none => rw [hrec] at h; cases h
      | some bs =>
        rw [hrec] at h
        simp only [Option.some.injEq] at h
        subst h
        cases i with
        | zero => simpa using hfa
        | succ j =>
          simpa using ih hrec j (by simpa using hi) (by simpa using hi')

theorem mapOpt_map_eq {α β : Type} {f : α → Option β} {g : α → β} {l : List α}
    (h : ∀ a ∈ l, f a = some (g a)) : mapOpt f l = some (l.map g) := by
  induction l with
  | nil => rfl
  | cons a as ih =>
    have ha := h a (List.mem_cons_self a as)
    have has := ih (fun x hx => h x (List.mem_cons_of_mem a hx))
    simp [mapOpt, ha, has]

theorem getD_eq_zero_of_all_zero {l : List ℚ} (h : ∀ a ∈ l, a = 0) (i : ℕ) :
    l.getD i 0 = 0 := by
  rcases Nat.lt_or_ge i l.length with hi | hi
  · rw [List.getD_eq_getElem _ _ hi]
    exact h _ (List.getElem_mem hi)
  · exact List.getD_eq_default _ _ hi

theorem getD_replicate_zero (n i : ℕ) : (List.replicate n (0 : ℚ)).getD i 0 = 0 :=
  getD_eq_zero_of_all_zero (fun _ ha => List.eq_of_mem_replicate ha) i

theorem linspace_length (stop : ℚ) (n : ℕ) : (linspace stop n).length = n := by
  rw [linspace, List.length_map, List.length_range]

theorem linspace_getD (stop : ℚ) (n i : ℕ) (h : i < n) :
    (linspace stop n).getD i 0 = (i : ℚ) * stop / ((n : ℚ) - 1) := by
  rw [linspace, List.getD_eq_getElem _ _ (by rw [List.length_map, List.length_range]; exact h)]
  rw [List.getElem_map, List.getElem_range]

theorem take_drop_getD (l : List ℚ) (k j : ℕ) (hj : j < k) (hk : k + 1 ≤ l.length) :
    ((l.drop 1).take k).getD j 0 = l.getD (1 + j) 0 := by
  have h1 : j < ((l.drop 1).take k).length := by
    rw [List.length_take, List.length_drop]; omega
  rw [List.getD_eq_getElem _ _ h1, List.getElem_take, List.getElem_drop,
    List.getD_eq_getElem _ _ (by omega)]

theorem force_locations_length (cfg : Config) :
    (force_locations cfg).length = cfg.num_force_points := by
  rw [force_locations, List.length_take, List.length_drop, linspace_length]
  omega

theorem force_locations_getD (cfg : Config) (j : ℕ) (hj : j < cfg.num_force_points) :
    (force_locations cfg).getD j 0 =
      ((j : ℚ) + 1) * L cfg / ((cfg.num_force_points : ℚ) + 1) := by
  rw [force_locations,
    take_drop_getD _ _ _ hj (by rw [linspace_length]; omega),
    linspace_getD _ _ _ (by omega)]
  push_cast
  ring_nf

theorem x_mesh_length (cfg : Config) : (x_mesh cfg).length = Nx cfg + 1 := by
  rw [x_mesh, linspace_length]

/-- The elementwise product against an all-zero vector sums to zero. -/
theorem zipWith_mul_replicate_zero_sum (l : List ℚ) (n : ℕ) :
    (List.zipWith (fun u v => u * v) (List.replicate n (0 : ℚ)) l).sum = 0 := by
  induction l generalizing n with
  | nil => simp
  | cons b bs ih =>
    cases n with
    | zero => simp
    | succ m => simp [List.replicate_succ, ih]

/-- The elementwise product is odd in its first operand. -/
theorem zipWith_mul_neg_sum (a l : List ℚ) :
    (List.zipWith (fun u v => u * v) (a.map (fun v => -v)) l).sum =
      -(List.zipWith (fun u v => u * v) a l).sum := by
  induction a generalizing l with
  | nil => simp
  | cons u us ih =>
    cases l with
    | nil => simp
    | cons v vs => simp [ih]; ring

/-- When the action vector has the right length, `impulse_term` cannot raise:
the NumPy product is a plain elementwise product. -/
theorem impulse_term_eq_some (rexp : ℚ → ℚ) (cfg : Config) (fv : List ℚ) (x : ℚ)
    (h : fv.length = cfg.num_force_points) :
    impulse_term rexp cfg fv x =
      some (List.zipWith (fun u v => u * v) fv
        ((force_locations cfg).map
          (fun loc => rexp (-(1/2 : ℚ) * (x - loc) ^ 2 / force_width_scaled cfg)))).sum := by
  unfold impulse_term broadcastMul
  rw [if_pos (by simp [force_locations_length, h])]
  rfl

/-- `reset` always succeeds and yields the all-zero rest state. -/
theorem reset_eq_rest (rexp : ℚ → ℚ) (cfg : Config) :
    reset rexp cfg = some
      { height := List.replicate (Nx cfg + 1) 0,
        height_n := List.replicate (Nx cfg + 1) 0,
        height_nm1 := List.replicate (Nx cfg + 1) 0,
        force_vals := List.replicate cfg.num_force_points 0,
        t := 0, n := 0 } := by
  have hinit : ((List.range (Nx cfg + 1)).map
      (fun i => Initial_Height ((x_mesh cfg).getD i 0))) =
      List.replicate (Nx cfg + 1) (0 : ℚ) := by
    rw [List.eq_replicate_iff]
    refine ⟨by simp, fun b hb => ?_⟩
    simp only [List.mem_map] at hb
    obtain ⟨i, _, hbi⟩ := hb
    simpa [Initial_Height] using hbi.symm
  have hentry : ∀ i ∈ List.range (Nx cfg + 1),
      resetEntry rexp cfg (List.replicate (Nx cfg + 1) (0 : ℚ))
        (List.replicate cfg.num_force_points 0) i = some ((fun _ => (0 : ℚ)) i) := by
    intro i _
    unfold resetEntry
    by_cases hb : i = 0 ∨ i = Nx cfg
    · rw [if_pos hb]
    · rw [if_neg hb]
      rw [impulse_term_eq_some rexp cfg _ _ (by simp)]
      simp [zipWith_mul_replicate_zero_sum, getD_replicate_zero, Velocity_0]
  simp only [reset]
  rw [hinit, mapOpt_map_eq hentry]
  simp only [Option.map_some', List.map_const', List.length_range]

/-- A successful `single_step` call is the record built from the list the
update loop produced. -/
theorem single_step_some_elim {rexp : ℚ → ℚ} {cfg : Config} {s s' : State}
    (hs : single_step rexp cfg s = some s') :
    ∃ hl : List ℚ, mapOpt (stepEntry rexp cfg s) (List.range (Nx cfg + 1)) = some hl ∧
      s' = { height := hl, height_n := hl, height_nm1 := s.height_n,
             force_vals := s.force_vals, t := s.t + dt cfg, n := s.n + 1 } := by
  unfold single_step at hs
  cases hm : mapOpt (stepEntry rexp cfg s) (List.range (Nx cfg + 1)) with
  | none => rw [hm] at hs; cases hs
  | some hl =>
    rw [hm] at hs
    simp only [Option.map_some', Option.some.injEq] at hs
    exact ⟨hl, rfl, hs.symm⟩

/-- An update-loop list whose entry function forces the two boundary indices
to zero has zero boundary entries. -/
theorem mapOpt_boundary {f : ℕ → Option ℚ} {h : List ℚ} {N : ℕ}
    (hm : mapOpt f (List.range (N + 1)) = some h)
    (h0 : f 0 = some 0) (hN : f N = some 0) :
    h.getD 0 0 = 0 ∧ h.getD N 0 = 0 := by
  have hlen : h.length = N + 1 := by rw [mapOpt_some_length hm, List.length_range]
  have hb0 : 0 < h.length := by omega
  have hbN : N < h.length := by omega
  have g0 := mapOpt_some_getElem hm 0 (by rw [List.length_range]; omega) hb0
  have gN := mapOpt_some_getElem hm N (by rw [List.length_range]; omega) hbN
  simp only [List.getElem_range] at g0 gN
  have e0 : (0 : ℚ) = h[0] := by
    have := h0.symm.trans g0
    simpa using this
  have eN : (0 : ℚ) = h[N] := by
    have := hN.symm.trans gN
    simpa using this
  constructor
  · rw [List.getD_eq_getElem _ _ hb0]; exact e0.symm
  · rw [List.getD_eq_getElem _ _ hbN]; exact eN.symm

theorem stepEntry_boundary_left (rexp : ℚ → ℚ) (cfg : Config) (s : State) :
    stepEntry rexp cfg s 0 = some 0 := by
  unfold stepEntry
  rw [if_pos (Or.inl rfl)]

theorem stepEntry_boundary_right (rexp : ℚ → ℚ) (cfg : Config) (s : State) :
    stepEntry rexp cfg s (Nx cfg) = some 0 := by
  unfold stepEntry
  rw [if_pos (Or.inr rfl)]

/-- A `zipWith` of equal-length lists, written index-wise. -/
theorem zipWith_eq_map_range {f : ℚ → ℚ → ℚ} {as bs : List ℚ} (h : as.length = bs.length) :
    List.zipWith f as bs =
      (List.range as.length).map (fun i => f (as.getD i 0) (bs.getD i 0)) := by
  apply List.ext_getElem
  · rw [List.length_zipWith, List.length_map, List.length_range]; omega
  · intro i h1 h2
    have hi : i < as.length := by rw [List.length_zipWith] at h1; omega
    simp only [List.getElem_zipWith, List.getElem_map, List.getElem_range]
    rw [List.getD_eq_getElem _ _ hi, List.getD_eq_getElem _ _ (by omega : i < bs.length)]

theorem getD_map_lt {g : ℚ → ℚ} {l : List ℚ} {j : ℕ} (hj : j < l.length) :
    (l.map g).getD j 0 = g (l.getD j 0) := by
  rw [List.getD_eq_getElem _ _ (by simpa using hj), List.getElem_map,
    List.getD_eq_getElem _ _ hj]

/-- One `single_step` from the rest state with forcing `b` of the right
length: it succeeds and every entry is `restStepEntryVal`. -/
theorem single_step_from_rest (rexp : ℚ → ℚ) (cfg : Config) (b : List ℚ)
    (hb : b.length = cfg.num_force_points) :
    single_step rexp cfg (take_in_action
      { height := List.replicate (Nx cfg + 1) 0,
        height_n := List.replicate (Nx cfg + 1) 0,
        height_nm1 := List.replicate (Nx cfg + 1) 0,
        force_vals := List.replicate cfg.num_force_points 0,
        t := 0, n := 0 } b) =
      some { height := (List.range (Nx cfg + 1)).map (restStepEntryVal rexp cfg b),
             height_n := (List.range (Nx cfg + 1)).map (restStepEntryVal rexp cfg b),
             height_nm1 := List.replicate (Nx cfg + 1) 0,
             force_vals := b, t := 0 + dt cfg, n := 0 + 1 } := by
  have hentry : ∀ i ∈ List.range (Nx cfg + 1),
      stepEntry rexp cfg (take_in_action
        { height := List.replicate (Nx cfg + 1) 0,
          height_n := List.replicate (Nx cfg + 1) 0,
          height_nm1 := List.replicate (Nx cfg + 1) 0,
          force_vals := List.replicate cfg.num_force_points 0,
          t := 0, n := 0 } b) i = some (restStepEntryVal rexp cfg b i) := by
    intro i _
    unfold stepEntry restStepEntryVal take_in_action
    by_cases hbd : i = 0 ∨ i = Nx cfg
    · rw [if_pos hbd, if_pos hbd]
    · rw [if_neg hbd, if_neg hbd]
      show (impulse_term rexp cfg b _).map _ = _
      rw [impulse_term_eq_some rexp cfg b _ hb]
      simp only [Option.map_some', Option.some.injEq, getD_replicate_zero]
      ring
  unfold single_step
  rw [mapOpt_map_eq hentry]
  rfl

/-! ### Claim theorems -/

/-- C1: from any state, a successful `single_step` writes the leapfrog value
`-height_nm1[i] + 2*height_n[i] + C2*(height_n[i-1] - 2*height_n[i] + height_n[i+1])
+ dt^2*impulse(x[i])` at every interior index, evaluated on the pre-call time
levels, forces `height[0]` and `height[Nx]` to zero, shifts the time levels
(`height_nm1` takes the old `height_n`, `height_n` the fresh `height`) and
leaves `t` advanced by `dt` and `n` by one. -/
theorem single_step_leapfrog (rexp : ℚ → ℚ) (cfg : Config) (s s' : State)
    (hs : single_step rexp cfg s = some s') :
    (∀ i, 1 ≤ i → i ≤ Nx cfg - 1 → ∃ v,
        impulse_term rexp cfg s.force_vals ((x_mesh cfg).getD i 0) = some v ∧
        s'.height.getD i 0 = -s.height_nm1.getD i 0 + 2 * s.height_n.getD i 0
          + C2 cfg * (s.height_n.getD (i - 1) 0 - 2 * s.height_n.getD i 0
              + s.height_n.getD (i + 1) 0)
          + dt cfg ^ 2 * v)
    ∧ s'.height.getD 0 0 = 0 ∧ s'.height.getD (Nx cfg) 0 = 0
    ∧ s'.height_nm1 = s.height_n ∧ s'.height_n = s'.height
    ∧ s'.t = s.t + dt cfg ∧ s'.n = s.n + 1 := by
  obtain ⟨hl, hm, rfl⟩ := single_step_some_elim hs
  have hlen : hl.length = Nx cfg + 1 := by rw [mapOpt_some_length hm, List.length_range]
  have hbd := mapOpt_boundary hm (stepEntry_boundary_left rexp cfg s)
    (stepEntry_boundary_right rexp cfg s)
  refine ⟨?_, hbd.1, hbd.2, rfl, rfl, rfl, rfl⟩
  intro i h1 h2
  have hiN : i < Nx cfg := by omega
  have hbi : i < hl.length := by omega
  have gi := mapOpt_some_getElem hm i (by rw [List.length_range]; omega) hbi
  simp only [List.getElem_range] at gi
  unfold stepEntry at gi
  rw [if_neg (by omega)] at gi
  cases himp : impulse_term rexp cfg s.force_vals ((x_mesh cfg).getD i 0) with
  | none => rw [himp] at gi; cases gi
  | some v =>
    rw [himp] at gi
    simp only [Option.map_some', Option.some.injEq] at gi
    refine ⟨v, rfl, ?_⟩
    show hl.getD i 0 = _
    rw [List.getD_eq_getElem _ _ (by omega)]
    exact gi.symm

/-- C2: in every state reachable through `reset`, `take_in_action` (any
vector, any values) and successful `single_step` calls, the boundary entries
(index `0` and `Nx`) of `height`, `height_n` and `height_nm1` are exactly
zero. -/
theorem boundary_dirichlet (rexp : ℚ → ℚ) (cfg : Config) (s : State)
    (h : Reachable rexp cfg s) :
    s.height.getD 0 0 = 0 ∧ s.height.getD (Nx cfg) 0 = 0
    ∧ s.height_n.getD 0 0 = 0 ∧ s.height_n.getD (Nx cfg) 0 = 0
    ∧ s.height_nm1.getD 0 0 = 0 ∧ s.height_nm1.getD (Nx cfg) 0 = 0 := by
  induction h with
  | rst hres =>
    rw [reset_eq_rest] at hres
    obtain rfl := Option.some.inj hres
    simp [getD_replicate_zero]
  | act a h ih => simpa [take_in_action] using ih
  | stp h hstep ih =>
    obtain ⟨hl, hm, rfl⟩ := single_step_some_elim hstep
    have hbd := mapOpt_boundary hm (stepEntry_boundary_left _ _ _)
      (stepEntry_boundary_right _ _ _)
    exact ⟨hbd.1, hbd.2, hbd.1, hbd.2, ih.2.2.1, ih.2.2.2.1⟩

/-- C4: `reset` (which in the code overwrites every entry of every array and
both counters, so its result is independent of the state it is called from —
this is what makes it idempotent, and a second `reset` right after a first
one yields the same state) produces the rest configuration: all three height
arrays identically zero, `force_vals` all zero, `t = 0` and `n = 0`. -/
theorem reset_rest_configuration (rexp : ℚ → ℚ) (cfg : Config) :
    reset rexp cfg = some
      { height := List.replicate (Nx cfg + 1) 0,
        height_n := List.replicate (Nx cfg + 1) 0,
        height_nm1 := List.replicate (Nx cfg + 1) 0,
        force_vals := List.replicate cfg.num_force_points 0,
        t := 0, n := 0 } :=
  reset_eq_rest rexp cfg

/-- C10: in every state reachable through `reset`, `take_in_action` and
successful `single_step` calls, the time-level shift has just copied the
fresh `height` into `height_n`, so `height_n = height` and channels 0 and 1
of `get_observation()` coincide: the observation holds only two distinct
time levels. -/
theorem observation_channels_duplicate (rexp : ℚ → ℚ) (cfg : Config) (s : State)
    (h : Reachable rexp cfg s) :
    s.height_n = s.height ∧
    (get_observation cfg s).map (fun p => p.2.1) =
      (get_observation cfg s).map (fun p => p.1) := by
  have hmain : s.height_n = s.height := by
    induction h with
    | rst hres =>
      rw [reset_eq_rest] at hres
      obtain rfl := Option.some.inj hres
      rfl
    | act a h ih => simpa [take_in_action] using ih
    | stp h hstep ih =>
      obtain ⟨hl, hm, rfl⟩ := single_step_some_elim hstep
      rfl
  refine ⟨hmain, ?_⟩
  simp only [get_observation, List.map_map]
  simp only [Function.comp_def, hmain]

/-- C7: for every scalar position `x` and every forcing vector of the
configured length, `impulse_term` returns
`sum_j force_vals[j] * exp(-0.5*(x - force_site[j])^2 / force_width_scaled)`
with `force_width_scaled = force_width * L` and
`force_site[j] = (j+1) * L / (num_force_points + 1)` — the `num_force_points`
interior samples of `num_force_points + 2` evenly spaced points over
`[0, L]`; when `0 < L` every site lies strictly inside the domain.  The
evaluation reads only `force_vals` and the static site/width configuration. -/
theorem impulse_gaussian_superposition (rexp : ℚ → ℚ) (cfg : Config) (fv : List ℚ)
    (x : ℚ) (h : fv.length = cfg.num_force_points) :
    impulse_term rexp cfg fv x =
      some (((List.range cfg.num_force_points).map (fun j =>
        fv.getD j 0 * rexp (-(1/2 : ℚ)
          * (x - ((j : ℚ) + 1) * L cfg / ((cfg.num_force_points : ℚ) + 1)) ^ 2
          / (cfg.force_width * L cfg)))).sum)
    ∧ (0 < L cfg → ∀ j, j < cfg.num_force_points →
        0 < (force_locations cfg).getD j 0 ∧ (force_locations cfg).getD j 0 < L cfg) := by
  constructor
  · rw [impulse_term_eq_some rexp cfg fv x h]
    congr 1
    congr 1
    rw [zipWith_eq_map_range (by rw [List.length_map, force_locations_length, h])]
    rw [h]
    apply List.map_congr_left
    intro j hj
    rw [List.mem_range] at hj
    rw [getD_map_lt (by rw [force_locations_length]; exact hj)]
    rw [force_locations_getD cfg j hj]
    rfl
  · intro hL j hj
    rw [force_locations_getD cfg j hj]
    have hNf : (0 : ℚ) < (cfg.num_force_points : ℚ) + 1 := by positivity
    constructor
    · exact div_pos (mul_pos (by positivity) hL) hNf
    · rw [div_lt_iff₀ hNf]
      have hcast : ((j : ℚ) + 1) ≤ (cfg.num_force_points : ℚ) := by exact_mod_cast hj
      nlinarith

/-- C8: from the rest state produced by `reset`, applying a forcing vector
`a` and taking one `single_step`, versus applying `-a` and taking one
`single_step`, produces height fields that are exact pointwise negatives of
each other (the recursion and the impulse term are linear in `force_vals`). -/
theorem forcing_negation_antisymmetry (rexp : ℚ → ℚ) (cfg : Config) (a : List ℚ)
    (ha : a.length = cfg.num_force_points) :
    ∃ s0 s1 s2, reset rexp cfg = some s0
      ∧ single_step rexp cfg (take_in_action s0 a) = some s1
      ∧ single_step rexp cfg (take_in_action s0 (a.map (fun v => -v))) = some s2
      ∧ s1.height = s2.height.map (fun v => -v) := by
  refine ⟨_, _, _, reset_eq_rest rexp cfg,
    single_step_from_rest rexp cfg a ha,
    single_step_from_rest rexp cfg (a.map (fun v => -v))
      (by rw [List.length_map]; exact ha), ?_⟩
  show (List.range (Nx cfg + 1)).map (restStepEntryVal rexp cfg a) =
    ((List.range (Nx cfg + 1)).map
      (restStepEntryVal rexp cfg (a.map (fun v => -v)))).map (fun v => -v)
  rw [List.map_map]
  apply List.map_congr_left
  intro i _
  simp only [Function.comp_apply]
  unfold restStepEntryVal
  by_cases hbd : i = 0 ∨ i = Nx cfg
  · rw [if_pos hbd, if_pos hbd]; ring
  · rw [if_neg hbd, if_neg hbd]
    rw [zipWith_mul_neg_sum]
    ring

/-- C5 counterexample: `take_in_action` performs no shape check.  With three
forcing sites, the length-1 vector `[5]` is accepted and silently copied into
`force_vals`, and the following `impulse_term`/`single_step` evaluation does
not raise either — NumPy broadcasting stretches the length-1 vector — so the
claim that every wrong-length action fails with a shape-mismatch error is
false. -/
theorem action_shape_cex :
    reset rexp1 cfgB = some restB
    ∧ (take_in_action restB [5]).force_vals = [5]
    ∧ ¬ (([5] : List ℚ).length = cfgB.num_force_points)
    ∧ (single_step rexp1 cfgB (take_in_action restB [5])).isSome = true := by
  with_unfolding_all decide

/-- C5 (amended): `take_in_action` copies any vector into `force_vals`
without a shape check.  A wrong-length vector only causes an error at the
next `impulse_term` evaluation, which raises a broadcast error when the
lengths are incompatible (neither equal nor either side of length 1), but
silently broadcasts a length-1 vector across all sites. -/
theorem take_in_action_amended (rexp : ℚ → ℚ) (cfg : Config) (s : State)
    (a : List ℚ) (x : ℚ) (hlen : a.length ≠ cfg.num_force_points) :
    (take_in_action s a).force_vals = a
    ∧ (a.length ≠ 1 → cfg.num_force_points ≠ 1 →
        impulse_term rexp cfg a x = none)
    ∧ (a.length = 1 →
        impulse_term rexp cfg a x =
          some (((force_locations cfg).map (fun loc =>
            a.headI * rexp (-(1/2 : ℚ) * (x - loc) ^ 2
              / force_width_scaled cfg))).sum)) := by
  refine ⟨rfl, ?_, ?_⟩
  · intro h1 hNf
    unfold impulse_term broadcastMul
    rw [if_neg (by rw [List.length_map, force_locations_length]; exact hlen),
      if_neg h1, if_neg (by rw [List.length_map, force_locations_length]; exact hNf)]
    rfl
  · intro h1
    unfold impulse_term broadcastMul
    rw [if_neg (by rw [List.length_map, force_locations_length]; exact hlen), if_pos h1]
    simp only [Option.map_some', Option.some.injEq, List.map_map]
    rfl

/-- C6: the constructor performs no validation at all.  With the non-positive
parameter `time_interval = -1` (all other parameters valid), construction
succeeds and yields a fully constructed object instead of failing fast with
a validation error — the gap the specification itself flags in the original
code. -/
theorem construct_accepts_nonpositive :
    construct rexp1 cfgNeg = some ⟨[0, 0, 0], [0, 0, 0], [0, 0, 0], [0], 0, 0⟩ := by
  with_unfolding_all decide

/-- C9: the simulator is deterministic — two freshly constructed instances
with identical configurations that receive identical interleaved
`take_in_action`/`single_step` sequences produce identical
`get_observation()` results after every call. -/
theorem determinism_two_runs (rexp : ℚ → ℚ) (cfg cfg' : Config)
    (ops ops' : List Op) (hc : cfg = cfg') (ho : ops = ops') :
    runTrace rexp cfg ops = runTrace rexp cfg' ops' := by
  subst hc
  subst ho
  rfl

/-- C3: `energy()` returns exactly half the Simpson-rule integral over the
mesh of the pointwise density `dudt^2 + C^2*dudx^2 + height^2`, with
`dudt[i] = (height[i] - height_nm1[i])/dt`, `dudx` the numerical gradient of
`height` over the mesh and `C` the Courant number.  (In the embedding
`energy` is a pure function of the state, mirroring that the Python method
only reads `self` and mutates nothing.) -/
theorem energy_is_half_simpson (cfg : Config) (s : State)
    (hlen : s.height_nm1.length = s.height.length) :
    energy cfg s = energySpecFormula cfg s := by
  simp only [energy, energySpecFormula]
  congr 1
  congr 1
  apply List.ext_getElem
  · simp only [List.length_zipWith, List.length_map, List.length_range, npGradient]
    omega
  · intro i h1 h2
    have hih : i < s.height.length := by
      simp only [List.length_zipWith, List.length_map, List.length_range,
        npGradient] at h1
      omega
    simp only [List.getElem_zipWith, List.getElem_map, List.getElem_range]
    rw [List.getD_eq_getElem _ _ hih,
      List.getD_eq_getElem _ _ (by omega : i < s.height_nm1.length),
      List.getD_eq_getElem _ _
        (by rw [npGradient, List.length_map, List.length_range]; exact hih :
          i < (npGradient s.height (x_mesh cfg)).length)]

/-! ### Witnesses: the claim theorems instantiated on concrete inputs -/

/-- C1 witness: one `single_step` of `cfg0` from the rest state carrying the
forcing vector `[3]`. -/
theorem single_step_leapfrog_witness :
    single_step rexp1 cfg0 sAct0 = some sStep0
    ∧ ((∀ i, 1 ≤ i → i ≤ Nx cfg0 - 1 → ∃ v,
          impulse_term rexp1 cfg0 sAct0.force_vals ((x_mesh cfg0).getD i 0) = some v ∧
          sStep0.height.getD i 0 = -sAct0.height_nm1.getD i 0 + 2 * sAct0.height_n.getD i 0
            + C2 cfg0 * (sAct0.height_n.getD (i - 1) 0 - 2 * sAct0.height_n.getD i 0
                + sAct0.height_n.getD (i + 1) 0)
            + dt cfg0 ^ 2 * v)
      ∧ sStep0.height.getD 0 0 = 0 ∧ sStep0.height.getD (Nx cfg0) 0 = 0
      ∧ sStep0.height_nm1 = sAct0.height_n ∧ sStep0.height_n = sStep0.height
      ∧ sStep0.t = sAct0.t + dt cfg0 ∧ sStep0.n = sAct0.n + 1) :=
  ⟨by with_unfolding_all decide,
    single_step_leapfrog rexp1 cfg0 sAct0 sStep0 (by with_unfolding_all decide)⟩

/-- C2 witness: the boundary invariant in the concrete reachable state
`sStep0`. -/
theorem boundary_dirichlet_witness :
    sStep0.height.getD 0 0 = 0 ∧ sStep0.height.getD (Nx cfg0) 0 = 0
    ∧ sStep0.height_n.getD 0 0 = 0 ∧ sStep0.height_n.getD (Nx cfg0) 0 = 0
    ∧ sStep0.height_nm1.getD 0 0 = 0 ∧ sStep0.height_nm1.getD (Nx cfg0) 0 = 0 :=
  boundary_dirichlet rexp1 cfg0 sStep0
    (Reachable.stp
      (Reachable.act [3]
        (Reachable.rst (show reset rexp1 cfg0 = some rest0 by with_unfolding_all decide)))
      (by with_unfolding_all decide))

/-- C3 witness: `energy` against the specification formula on the concrete
state `sStep0`. -/
theorem energy_is_half_simpson_witness :
    sStep0.height_nm1.length = sStep0.height.length
    ∧ energy cfg0 sStep0 = energySpecFormula cfg0 sStep0 :=
  ⟨by decide, energy_is_half_simpson cfg0 sStep0 (by decide)⟩

/-- C5 witness: the amended behaviour at the concrete wrong-length vector
`[5]` under the three-site configuration `cfgB`. -/
theorem take_in_action_amended_witness :
    (([5] : List ℚ).length ≠ cfgB.num_force_points)
    ∧ ((take_in_action restB [5]).force_vals = [5]
      ∧ (([5] : List ℚ).length ≠ 1 → cfgB.num_force_points ≠ 1 →
          impulse_term rexp1 cfgB [5] 0 = none)
      ∧ (([5] : List ℚ).length = 1 →
          impulse_term rexp1 cfgB [5] 0 =
            some (((force_locations cfgB).map (fun loc =>
              ([5] : List ℚ).headI * rexp1 (-(1/2 : ℚ) * (0 - loc) ^ 2
                / force_width_scaled cfgB))).sum))) :=
  ⟨by decide, take_in_action_amended rexp1 cfgB restB [5] 0 (by decide)⟩

/-- C7 witness: the Gaussian superposition formula at the concrete vector
`[2]`, position `0`, under the non-constant exponential stand-in `rexpA`. -/
theorem impulse_gaussian_superposition_witness :
    (([2] : List ℚ).length = cfg0.num_force_points)
    ∧ (impulse_term rexpA cfg0 [2] 0 =
        some (((List.range cfg0.num_force_points).map (fun j =>
          ([2] : List ℚ).getD j 0 * rexpA (-(1/2 : ℚ)
            * (0 - ((j : ℚ) + 1) * L cfg0 / ((cfg0.num_force_points : ℚ) + 1)) ^ 2
            / (cfg0.force_width * L cfg0)))).sum)
      ∧ (0 < L cfg0 → ∀ j, j < cfg0.num_force_points →
          0 < (force_locations cfg0).getD j 0 ∧ (force_locations cfg0).getD j 0 < L cfg0)) :=
  ⟨by decide, impulse_gaussian_superposition rexpA cfg0 [2] 0 (by decide)⟩

/-- C8 witness: one step under `[2]` versus `[-2]` from the rest state of
`cfg0`. -/
theorem forcing_negation_antisymmetry_witness :
    (([2] : List ℚ).length = cfg0.num_force_points)
    ∧ (∃ s0 s1 s2, reset rexp1 cfg0 = some s0
        ∧ single_step rexp1 cfg0 (take_in_action s0 [2]) = some s1
        ∧ single_step rexp1 cfg0 (take_in_action s0 (([2] : List ℚ).map (fun v => -v))) = some s2
        ∧ s1.height = s2.height.map (fun v => -v)) :=
  ⟨by decide, forcing_negation_antisymmetry rexp1 cfg0 [2] (by decide)⟩

/-- C9 witness: determinism at the concrete configuration `cfg0` and call
sequence `opsW`. -/
theorem determinism_two_runs_witness :
    cfg0 = cfg0 ∧ opsW = opsW ∧ runTrace rexp1 cfg0 opsW = runTrace rexp1 cfg0 opsW :=
  ⟨rfl, rfl, determinism_two_runs rexp1 cfg0 cfg0 opsW opsW rfl rfl⟩

/-- C10 witness: the duplicated observation channels in the concrete
reachable state `sStep0`. -/
theorem observation_channels_duplicate_witness :
    sStep0.height_n = sStep0.height
    ∧ (get_observation cfg0 sStep0).map (fun p => p.2.1) =
        (get_observation cfg0 sStep0).map (fun p => p.1) :=
  observation_channels_duplicate rexp1 cfg0 sStep0
    (Reachable.stp
      (Reachable.act [3]
        (Reachable.rst (show reset rexp1 cfg0 = some rest0 by with_unfolding_all decide)))
      (by with_unfolding_all decide))

end WaveRL
